import Mathlib

/-!
Shallow embedding of the mention-dispatch engine of `bot.js` (tagall-bot).

Strings are modelled as `List Char`; JavaScript runtime values that matter to
the claims (truthiness of optional fields, millisecond timestamps, the
`retry_after` field of transport errors) are modelled explicitly.  All
definitions are translated from the source file; the only definition written
from the spec's words is `htmlEntitySub` (the simultaneous HTML-entity
substitution that claim C9 compares `escapeHtml` against).
-/

namespace TagallBot

/-- ASCII lower/upper case pairs; `String.prototype.toLowerCase` /
`toUpperCase` restricted to ASCII, which is the alphabet of command words and
team slugs (`SLUG_REGEX = /^[a-zA-Z0-9_]+$/`). -/
def asciiCasePairs : List (Char × Char) :=
  [('a','A'),('b','B'),('c','C'),('d','D'),('e','E'),('f','F'),('g','G'),
   ('h','H'),('i','I'),('j','J'),('k','K'),('l','L'),('m','M'),('n','N'),
   ('o','O'),('p','P'),('q','Q'),('r','R'),('s','S'),('t','T'),('u','U'),
   ('v','V'),('w','W'),('x','X'),('y','Y'),('z','Z')]

/-- JS `toLowerCase` on one character (ASCII range). -/
def toLowerJS (c : Char) : Char :=
  match asciiCasePairs.find? (fun p => p.2 == c) with
  | some p => p.1
  | none => c

/-- JS `toUpperCase` on one character (ASCII range). -/
def toUpperJS (c : Char) : Char :=
  match asciiCasePairs.find? (fun p => p.1 == c) with
  | some p => p.2
  | none => c

/-- A regex `\w` character: `[A-Za-z0-9_]`. -/
def isWordChar (c : Char) : Bool :=
  (('a' ≤ c && c ≤ 'z') || ('A' ≤ c && c ≤ 'Z') || ('0' ≤ c && c ≤ '9') || c == '_')

/-- JS `String.prototype.trim` (whitespace at both ends removed). -/
def jsTrim (l : List Char) : List Char :=
  ((l.dropWhile Char.isWhitespace).reverse.dropWhile Char.isWhitespace).reverse

/-- `s.replaceAll(pat, rep)` for a single-character pattern `pat`. -/
def replaceAllChar (p : Char) (rep : List Char) : List Char → List Char
  | [] => []
  | c :: cs => (if c = p then rep else [c]) ++ replaceAllChar p rep cs

/-- `escapeHtml` from bot.js: four chained `replaceAll` calls, `&` first. -/
def escapeHtml (s : List Char) : List Char :=
  replaceAllChar '"' "&quot;".toList
    (replaceAllChar '>' "&gt;".toList
      (replaceAllChar '<' "&lt;".toList
        (replaceAllChar '&' "&amp;".toList s)))

/-- Modelled from the spec: the entity for one character under the
simultaneous HTML escaping described in §4.5 / claim C9 (every occurrence of
the four characters replaced by its entity, all other characters kept). -/
def esc (c : Char) : List Char :=
  if c = '&' then "&amp;".toList
  else if c = '<' then "&lt;".toList
  else if c = '>' then "&gt;".toList
  else if c = '"' then "&quot;".toList
  else [c]

/-- Modelled from the spec: simultaneous single-pass HTML-entity
substitution, the spec-side description that claim C9 states. -/
def htmlEntitySub : List Char → List Char
  | [] => []
  | c :: cs => esc c ++ htmlEntitySub cs

/-- One user row as returned by the member queries
(`user_id, first_name, last_name, username`).  `none` is SQL NULL /
JS `undefined`. -/
structure User where
  user_id : Nat
  first_name : Option (List Char)
  last_name : Option (List Char)
  username : Option (List Char)
deriving DecidableEq, Repr

/-- `displayName` from bot.js: `[first, last].filter(Boolean).join(" ").trim()`,
else `@username`, else `id:<numeric id>`.  `filter(Boolean)` drops both
missing and empty-string fields; the `if (full)` / `if (u.username)` tests
are JS truthiness, i.e. non-empty string. -/
def displayName (u : User) : List Char :=
  let parts := ([u.first_name, u.last_name].filterMap id).filter (fun s => ¬ s.isEmpty)
  let full := jsTrim (List.intercalate " ".toList parts)
  if ¬ full.isEmpty then full
  else
    match u.username with
    | some un => if ¬ un.isEmpty then '@' :: un else "id:".toList ++ Nat.toDigits 10 u.user_id
    | none => "id:".toList ++ Nat.toDigits 10 u.user_id

/-- `mentionHtml` from bot.js:
`<a href="tg://user?id=${u.user_id}">${escapeHtml(displayName(u))}</a>`. -/
def mentionHtml (u : User) : List Char :=
  "<a href=\"tg://user?id=".toList ++ Nat.toDigits 10 u.user_id ++ "\">".toList
    ++ escapeHtml (displayName u) ++ "</a>".toList

/-- `MENTION_SEPARATOR = " | "`. -/
def MENTION_SEPARATOR : List Char := " | ".toList

/-- Default `TAGALL_CHUNK_SIZE` (the source clamps the env value with
`Math.max(1, ...)`, so the effective chunk size is always ≥ 1). -/
def CHUNK : Nat := 20

/-- Default `TAGALL_DELAY_MS`. -/
def DELAY_MS : Nat := 1200

/-- Default `TAGALL_COOLDOWN_SEC`. -/
def COOLDOWN_SEC : Nat := 60

/-- `teamLabelForMessage` from bot.js: `"Все"` for a falsy slug, otherwise
`slug.charAt(0).toUpperCase() + slug.slice(1).toLowerCase()`. -/
def teamLabelForMessage : Option (List Char) → List Char
  | none => "Все".toList
  | some [] => "Все".toList
  | some (c :: cs) => toUpperJS c :: cs.map toLowerJS

/-- The per-batch suffix built in `sendMentionChunks`:
`"\n" + escapeHtml(label) + ", для вас важное сообщение!"`. -/
def mentionSuffix (slug : Option (List Char)) : List Char :=
  '\n' :: (escapeHtml (teamLabelForMessage slug) ++ ", для вас важное сообщение!".toList)

/-- Text of one batch: mention tokens joined by `MENTION_SEPARATOR`,
then the suffix (`mentions + suffix` in `sendMentionChunks`). -/
def renderBatch (chunk : List User) (sfx : List Char) : List Char :=
  List.intercalate MENTION_SEPARATOR (chunk.map mentionHtml) ++ sfx

/-- Fuelled helper for `chunkList`; the fuel is the list length, enough
whenever the chunk size is ≥ 1 (which `Math.max(1, ...)` guarantees). -/
def chunkListAux (k : Nat) : Nat → List User → List (List User)
  | 0, _ => []
  | _ + 1, [] => []
  | fuel + 1, x :: xs => (x :: xs).take k :: chunkListAux k fuel ((x :: xs).drop k)

/-- The chunking loop of `sendMentionChunks`:
`for (let i = 0; i < members.length; i += CHUNK) chunks.push(members.slice(i, i + CHUNK))`. -/
def chunkList (k : Nat) (l : List User) : List (List User) :=
  chunkListAux k l.length l

/-- Result of one `ctx.telegram.sendMessage` call: success, or an error whose
`e?.parameters?.retry_after` field is `retryAfter` (`none` models an error
object without that field). -/
inductive SendResult where
  | ok
  | err (retryAfter : Option Nat)
deriving DecidableEq, Repr

/-- Observable steps of a dispatch invocation, in program order. -/
inductive Event where
  | reply (text : List Char)
  | setCooldown
  | attempt (i : Nat) (text : List Char)
  | sleep (ms : Nat)
deriving DecidableEq, Repr

/-- Whether an event is a reply to the invoking chat. -/
def isReplyEvent : Event → Bool
  | Event.reply _ => true
  | _ => false

/-- How the send loop of `sendMentionChunks` ends: normally, by throwing the
transport error of batch `i` (a non-throttle error), or fuel exhaustion (an
artifact of the fuelled model, never claimed about). -/
inductive Outcome where
  | completed
  | aborted (i : Nat)
  | outOfFuel
deriving DecidableEq, Repr

/-- The send loop of `sendMentionChunks`.  `oracle att` is the transport's
response to the `att`-th send call of this dispatch.  On success: pacing sleep
`DELAY_MS` unless this was the last batch, then next batch.  On an error with
a truthy `retry_after = t`: sleep `(t + 1) * 1000` ms, `i--; continue` (same
batch again).  Any other error is thrown (`Outcome.aborted i`).  `fuel`
bounds the number of loop iterations. -/
def dispatchRun (d : Nat) (chunks : List (List User)) (sfx : List Char)
    (oracle : Nat → SendResult) : Nat → Nat → Nat → List Event × Outcome
  | 0, _, _ => ([], Outcome.outOfFuel)
  | fuel + 1, att, i =>
    if h : i < chunks.length then
      let text := renderBatch (chunks.get ⟨i, h⟩) sfx
      match oracle att with
      | SendResult.ok =>
        let r := dispatchRun d chunks sfx oracle fuel (att + 1) (i + 1)
        (Event.attempt i text ::
          ((if i + 1 < chunks.length then [Event.sleep d] else []) ++ r.1), r.2)
      | SendResult.err none => ([Event.attempt i text], Outcome.aborted i)
      | SendResult.err (some t) =>
        if t = 0 then ([Event.attempt i text], Outcome.aborted i)
        else
          let r := dispatchRun d chunks sfx oracle fuel (att + 1) i
          (Event.attempt i text :: Event.sleep ((t + 1) * 1000) :: r.1, r.2)
    else ([], Outcome.completed)

/-- `checkCooldown` from bot.js, with time in integer milliseconds.  The code
computes `elapsed = (Date.now() - last) / 1000` and returns
`Math.ceil(COOLDOWN_SEC - elapsed)` when `elapsed < COOLDOWN_SEC`; in exact
arithmetic that ceiling is `(1000 * C - m + 999) / 1000` (floor division).
`last = none` models a missing map entry, and a stored `0` is falsy in JS
(`if (!last) return null`), hence the `l = 0` test.  The handler only ever
evaluates this with `now` at or after the stored stamp. -/
def checkCooldown (cooldownSec : Nat) (last : Option Nat) (now : Nat) : Option Nat :=
  if cooldownSec = 0 then none
  else
    match last with
    | none => none
    | some l =>
      if l = 0 then none
      else if now - l < cooldownSec * 1000 then
        some ((cooldownSec * 1000 - (now - l) + 999) / 1000)
      else none

/-- First command word of a text under the regex
`/\/(tagall|[\w]+)(@\w+)?/gi` used by `parseTagCommand`, already lowercased
(the source does `match[1].toLowerCase()`).  The alternation tries `tagall`
first (case-insensitively, with no word-boundary requirement), then a maximal
non-empty `\w+` run; on no match at this position the scan advances one
character. -/
def firstCmdWord : List Char → Option (List Char)
  | [] => none
  | c :: rest =>
    if c = '/' then
      if (rest.take 6).map toLowerJS = "tagall".toList then some ("tagall".toList)
      else
        match rest.takeWhile isWordChar with
        | [] => firstCmdWord rest
        | w => some (w.map toLowerJS)
    else firstCmdWord rest

/-- A classified tag command: the reserved full-roster command, or a team
with its slug in the stored casing. -/
inductive TagCmd where
  | tagall
  | team (slug : List Char)
deriving DecidableEq, Repr

/-- `parseTagCommand` from bot.js.  `teams` is the chat's `chat_teams` rows in
table order; the case-insensitive lookup
(`WHERE LOWER(slug) = LOWER(?) LIMIT 1`) is the first slug whose ASCII
lowercase form matches, and the stored slug is returned. -/
def parseTagCommand (teams : List (List Char)) (text : List Char) : Option TagCmd :=
  match firstCmdWord text with
  | none => none
  | some cmd =>
    if cmd = "tagall".toList then some TagCmd.tagall
    else
      match List.find? (fun t => t.map toLowerJS == cmd) teams with
      | some s => some (TagCmd.team s)
      | none => none

/-- `text.replace(new RegExp("\\/" + cmd + "(@\\w+)?", "gi"), "")` from
`messageHasExtraContent`: every occurrence of `/cmd`, optionally followed by
`@` and a non-empty word-character run, is removed; the scan resumes after
each removed match.  `cmdL` is the command pre-lowercased (the `i` flag). -/
def stripCmdAux (cmdL : List Char) : Nat → List Char → List Char
  | _, [] => []
  | 0, l => l
  | fuel + 1, c :: rest =>
    if c = '/' ∧ (rest.take cmdL.length).map toLowerJS = cmdL then
      match rest.drop cmdL.length with
      | '@' :: r =>
        match r.takeWhile isWordChar with
        | [] => stripCmdAux cmdL fuel (rest.drop cmdL.length)
        | w => stripCmdAux cmdL fuel ((rest.drop cmdL.length).drop (1 + w.length))
      | _ => stripCmdAux cmdL fuel (rest.drop cmdL.length)
    else c :: stripCmdAux cmdL fuel rest

/-- `stripCmdAux` with its fuel set to the text length: every scan step
consumes at least the one character that starts it, so this fuel is always
enough and the fuel only discharges termination. -/
def stripCmd (cmdL l : List Char) : List Char :=
  stripCmdAux cmdL l.length l

/-- The inbound message fields the dispatch path reads.  The media fields are
the truthiness of `msg.photo`, `msg.video`, … in `messageHasExtraContent`. -/
structure Msg where
  message_id : Nat
  reply_to : Option Nat
  text : Option (List Char)
  caption : Option (List Char)
  hasPhoto : Bool
  hasVideo : Bool
  hasDocument : Bool
  hasAudio : Bool
  hasVoice : Bool
  hasVideoNote : Bool
  hasSticker : Bool
deriving DecidableEq, Repr

/-- `msg.text || msg.caption || ""`: first truthy (non-empty) alternative. -/
def jsOrText (t c : Option (List Char)) : List Char :=
  match t with
  | some s => if ¬ s.isEmpty then s else (match c with | some u => u | none => [])
  | none => match c with | some u => u | none => []

/-- The command token string handed to `messageHasExtraContent`
(`commandInfo.type === "tagall" ? "tagall" : commandInfo.slug`). -/
def cmdToken : TagCmd → List Char
  | TagCmd.tagall => "tagall".toList
  | TagCmd.team s => s

/-- `messageHasExtraContent` from bot.js: a non-text media attachment, or
non-empty residual text once every occurrence of the command token is
stripped and the result trimmed. -/
def messageHasExtraContent (m : Msg) (cmdStr : List Char) : Bool :=
  m.hasPhoto || m.hasVideo || m.hasDocument || m.hasAudio || m.hasVoice ||
  m.hasVideoNote || m.hasSticker ||
  decide (0 < (jsTrim (stripCmd (cmdStr.map toLowerJS) (jsOrText m.text m.caption))).length)

/-- `getTargetMessageId` from bot.js: the replied-to message if the command is
itself a reply; else the command message itself when it carries extra
content; else no target. -/
def getTargetMessageId (m : Msg) (cmd : TagCmd) : Option Nat :=
  match m.reply_to with
  | some rid => some rid
  | none => if messageHasExtraContent m (cmdToken cmd) then some m.message_id else none

/-- Usage hint replied when no target message can be resolved. -/
def usageHintMsg : List Char :=
  "Ответь (reply) на важное сообщение или добавь текст/фото/видео к команде — бот ответит на нужное сообщение.".toList

/-- Refusal replied to non-admins when the chat is restricted to admins. -/
def adminsOnlyMsg : List Char :=
  "⛔️ Команда доступна только админам группы.".toList

/-- Cooldown refusal (`waitSec` interpolated). -/
def waitMsg (w : Nat) : List Char :=
  "Подожди ещё ".toList ++ Nat.toDigits 10 w ++ " сек. перед следующим тегом.".toList

/-- Reply when the roster is still empty. -/
def noMembersMsg : List Char :=
  "Пока некого упоминать: я ещё не собрал базу участников.".toList

/-- Reply when the named team has no members (stored slug interpolated). -/
def emptyTeamMsg (slug : List Char) : List Char :=
  "В команде /".toList ++ slug ++ " пока никого. Добавь участников через /admin → Подгруппы.".toList

/-- Generic failure reply of the dispatch handler's `catch` block. -/
def genericErrorMsg : List Char :=
  "❌ Ошибка. Посмотри логи бота.".toList

/-- The dispatch message handler (`bot.on("message")`, the tag-command one):
group check, text/caption extraction, command classification, target
resolution, admin gate, cooldown gate, member resolution, cooldown stamp,
then the send loop; a thrown transport error is caught and answered with one
generic failure reply.  `isAdminRes` is the (fail-closed) result of the
`isAdmin` transport query; `roster` and `teamMembers` are the store's ordered
query results; `oracle`/`fuel` drive the send loop. -/
def handleTagMessage (isGroup : Bool) (m : Msg) (teams : List (List Char))
    (onlyAdmins isAdminRes : Bool) (cooldownSec : Nat) (lastRun : Option Nat) (now : Nat)
    (roster : List User) (teamMembers : List Char → List User)
    (chunkSize delayMs : Nat) (oracle : Nat → SendResult) (fuel : Nat) : List Event :=
  if ¬ isGroup then [] else
  let text := jsOrText m.text m.caption
  if text.isEmpty then [] else
  match parseTagCommand teams text with
  | none => []
  | some cmd =>
    match getTargetMessageId m cmd with
    | none => [Event.reply usageHintMsg]
    | some _ =>
      if onlyAdmins && !isAdminRes then [Event.reply adminsOnlyMsg]
      else
        match checkCooldown cooldownSec lastRun now with
        | some w => [Event.reply (waitMsg w)]
        | none =>
          match cmd with
          | TagCmd.tagall =>
            if roster.isEmpty then [Event.reply noMembersMsg]
            else
              let r := dispatchRun delayMs (chunkList chunkSize roster) (mentionSuffix none) oracle fuel 0 0
              Event.setCooldown :: r.1 ++
                (match r.2 with | Outcome.aborted _ => [Event.reply genericErrorMsg] | _ => [])
          | TagCmd.team s =>
            let ms := teamMembers s
            if ms.isEmpty then [Event.reply (emptyTeamMsg s)]
            else
              let r := dispatchRun delayMs (chunkList chunkSize ms) (mentionSuffix (some s)) oracle fuel 0 0
              Event.setCooldown :: r.1 ++
                (match r.2 with | Outcome.aborted _ => [Event.reply genericErrorMsg] | _ => [])

/-- Concrete users for witnesses. -/
def uAnn : User := ⟨1, some "Ann".toList, some "Lee".toList, none⟩

def uBob : User := ⟨2, none, none, some "bob".toList⟩

def uCid : User := ⟨12345, none, none, none⟩

/-! ## Lemmas about the chunking loop -/

theorem chunkListAux_nil (k fuel : Nat) : chunkListAux k fuel [] = [] := by
  cases fuel <;> rfl

theorem chunkListAux_join (k : Nat) (hk : 1 ≤ k) :
    ∀ (fuel : Nat) (l : List User), l.length ≤ fuel →
      (chunkListAux k fuel l).flatten = l := by
  intro fuel
  induction fuel with
  | zero =>
    intro l hl
    have : l = [] := List.eq_nil_of_length_eq_zero (Nat.le_zero.mp hl)
    subst this; rfl
  | succ n ih =>
    intro l hl
    cases l with
    | nil => rfl
    | cons x xs =>
      simp only [chunkListAux, List.flatten]
      rw [ih ((x :: xs).drop k) (by simp only [List.length_drop, List.length_cons] at *; omega)]
      exact List.take_append_drop k (x :: xs)

theorem chunkListAux_sizes (k : Nat) (hk : 1 ≤ k) :
    ∀ (fuel : Nat) (l : List User), l.length ≤ fuel →
      ∀ c ∈ chunkListAux k fuel l, c.length ≤ k ∧ c ≠ [] := by
  intro fuel
  induction fuel with
  | zero => intro l hl c hc; simp [chunkListAux] at hc
  | succ n ih =>
    intro l hl c hc
    cases l with
    | nil => simp [chunkListAux] at hc
    | cons x xs =>
      simp only [chunkListAux, List.mem_cons] at hc
      rcases hc with rfl | hc
      · constructor
        · simp [Nat.min_le_left k (x :: xs).length]
        · have : 0 < ((x :: xs).take k).length := by
            simp only [List.length_take, List.length_cons]
            omega
          exact List.ne_nil_of_length_pos this
      · exact ih ((x :: xs).drop k)
          (by simp only [List.length_drop, List.length_cons] at *; omega) c hc

theorem chunkListAux_dropLast (k : Nat) (hk : 1 ≤ k) :
    ∀ (fuel : Nat) (l : List User), l.length ≤ fuel →
      ∀ c ∈ (chunkListAux k fuel l).dropLast, c.length = k := by
  intro fuel
  induction fuel with
  | zero => intro l hl c hc; simp [chunkListAux] at hc
  | succ n ih =>
    intro l hl c hc
    cases l with
    | nil => simp [chunkListAux] at hc
    | cons x xs =>
      simp only [chunkListAux] at hc
      rcases hrest : chunkListAux k n ((x :: xs).drop k) with _ | ⟨y, ys⟩
      · rw [hrest] at hc; simp at hc
      · rw [hrest] at hc
        rw [List.dropLast_cons_of_ne_nil (by simp)] at hc
        rcases List.mem_cons.mp hc with rfl | hc'
        · -- the head chunk: the rest is non-empty, so at least k+1 users remained
          have hdrop : (x :: xs).drop k ≠ [] := by
            intro hnil
            rw [hnil, chunkListAux_nil] at hrest
            exact (List.cons_ne_nil y ys) hrest.symm
          have hlen : k < (x :: xs).length := by
            by_contra hle
            exact hdrop (List.drop_eq_nil_of_le (Nat.le_of_not_lt hle))
          simp only [List.length_take]
          omega
        · rw [← hrest] at hc'
          exact ih ((x :: xs).drop k)
            (by simp only [List.length_drop, List.length_cons] at *; omega) c hc'

/-- C1: for every recipient list `R` and batch size `K ≥ 1` (default 20), the
dispatcher's partition of `R` consists of consecutive batches of size exactly
`K` except possibly a smaller non-empty final batch, and concatenating the
batches in order yields `R` exactly — no element lost, duplicated or
reordered. -/
theorem c1_partition_roundtrip (K : Nat) (R : List User) (hK : 1 ≤ K) :
    (chunkList K R).flatten = R ∧
    (∀ c ∈ (chunkList K R).dropLast, c.length = K) ∧
    (∀ c ∈ chunkList K R, c.length ≤ K ∧ c ≠ []) := by
  refine ⟨chunkListAux_join K hK R.length R le_rfl, ?_, ?_⟩
  · exact chunkListAux_dropLast K hK R.length R le_rfl
  · exact chunkListAux_sizes K hK R.length R le_rfl

/-- Witness for C1 at the default batch size 20 and at size 2 on a concrete
three-user roster. -/
theorem c1_partition_roundtrip_witness :
    ((chunkList CHUNK [uAnn, uBob, uCid]).flatten = [uAnn, uBob, uCid] ∧
      (∀ c ∈ (chunkList CHUNK [uAnn, uBob, uCid]).dropLast, c.length = CHUNK) ∧
      (∀ c ∈ chunkList CHUNK [uAnn, uBob, uCid], c.length ≤ CHUNK ∧ c ≠ [])) ∧
    ((chunkList 2 [uAnn, uBob, uCid]).flatten = [uAnn, uBob, uCid] ∧
      (∀ c ∈ (chunkList 2 [uAnn, uBob, uCid]).dropLast, c.length = 2) ∧
      (∀ c ∈ chunkList 2 [uAnn, uBob, uCid], c.length ≤ 2 ∧ c ≠ [])) :=
  ⟨c1_partition_roundtrip CHUNK [uAnn, uBob, uCid] (by decide),
   c1_partition_roundtrip 2 [uAnn, uBob, uCid] (by decide)⟩

/-! ## Lemmas about the send loop -/

theorem dispatchRun_zero (d : Nat) (chunks : List (List User)) (sfx : List Char)
    (oracle : Nat → SendResult) (att i : Nat) :
    dispatchRun d chunks sfx oracle 0 att i = ([], Outcome.outOfFuel) := rfl

theorem dispatchRun_done (d : Nat) (chunks : List (List User)) (sfx : List Char)
    (oracle : Nat → SendResult) (n att i : Nat) (h : ¬ i < chunks.length) :
    dispatchRun d chunks sfx oracle (n + 1) att i = ([], Outcome.completed) := by
  rw [dispatchRun, dif_neg h]

theorem dispatchRun_ok (d : Nat) (chunks : List (List User)) (sfx : List Char)
    (oracle : Nat → SendResult) (n att i : Nat) (h : i < chunks.length)
    (ho : oracle att = SendResult.ok) :
    dispatchRun d chunks sfx oracle (n + 1) att i =
      (Event.attempt i (renderBatch (chunks.get ⟨i, h⟩) sfx) ::
        ((if i + 1 < chunks.length then [Event.sleep d] else []) ++
          (dispatchRun d chunks sfx oracle n (att + 1) (i + 1)).1),
       (dispatchRun d chunks sfx oracle n (att + 1) (i + 1)).2) := by
  rw [dispatchRun, dif_pos h, ho]

theorem dispatchRun_fatal (d : Nat) (chunks : List (List User)) (sfx : List Char)
    (oracle : Nat → SendResult) (n att i : Nat) (h : i < chunks.length)
    (ho : oracle att = SendResult.err none) :
    dispatchRun d chunks sfx oracle (n + 1) att i =
      ([Event.attempt i (renderBatch (chunks.get ⟨i, h⟩) sfx)], Outcome.aborted i) := by
  rw [dispatchRun, dif_pos h, ho]

theorem dispatchRun_throttle0 (d : Nat) (chunks : List (List User)) (sfx : List Char)
    (oracle : Nat → SendResult) (n att i : Nat) (h : i < chunks.length)
    (ho : oracle att = SendResult.err (some 0)) :
    dispatchRun d chunks sfx oracle (n + 1) att i =
      ([Event.attempt i (renderBatch (chunks.get ⟨i, h⟩) sfx)], Outcome.aborted i) := by
  rw [dispatchRun, dif_pos h, ho]
  simp

theorem dispatchRun_throttle (d : Nat) (chunks : List (List User)) (sfx : List Char)
    (oracle : Nat → SendResult) (n att i t : Nat) (h : i < chunks.length)
    (ho : oracle att = SendResult.err (some t)) (ht : t ≠ 0) :
    dispatchRun d chunks sfx oracle (n + 1) att i =
      (Event.attempt i (renderBatch (chunks.get ⟨i, h⟩) sfx) ::
        Event.sleep ((t + 1) * 1000) :: (dispatchRun d chunks sfx oracle n (att + 1) i).1,
       (dispatchRun d chunks sfx oracle n (att + 1) i).2) := by
  rw [dispatchRun, dif_pos h, ho]
  simp [ht]

/-- Every attempt event of the send loop carries the batch index it serves,
within bounds, with exactly the rendered text of that batch; indexes never go
below the loop's starting index. -/
theorem dispatch_attempt_mem (d : Nat) (chunks : List (List User)) (sfx : List Char)
    (oracle : Nat → SendResult) :
    ∀ (fuel att i k : Nat) (t : List Char),
      Event.attempt k t ∈ (dispatchRun d chunks sfx oracle fuel att i).1 →
      i ≤ k ∧ ∃ h : k < chunks.length, t = renderBatch (chunks.get ⟨k, h⟩) sfx := by
  intro fuel
  induction fuel with
  | zero => intro att i k t hmem; simp [dispatchRun_zero] at hmem
  | succ n ih =>
    intro att i k t hmem
    by_cases h : i < chunks.length
    · rcases horacle : oracle att with _ | ⟨_ | t'⟩
      · rw [dispatchRun_ok d chunks sfx oracle n att i h horacle] at hmem
        simp only [List.mem_cons, List.mem_append] at hmem
        rcases hmem with heq | hmem
        · cases heq
          exact ⟨le_rfl, h, rfl⟩
        · rcases hmem with hmem | hmem
          · by_cases hp : i + 1 < chunks.length <;> simp [hp] at hmem
          · have := ih (att + 1) (i + 1) k t hmem
            exact ⟨by omega, this.2⟩
      · rw [dispatchRun_fatal d chunks sfx oracle n att i h horacle] at hmem
        simp only [List.mem_singleton] at hmem
        cases hmem
        exact ⟨le_rfl, h, rfl⟩
      · by_cases ht : t' = 0
        · subst ht
          rw [dispatchRun_throttle0 d chunks sfx oracle n att i h horacle] at hmem
          simp only [List.mem_singleton] at hmem
          cases hmem
          exact ⟨le_rfl, h, rfl⟩
        · rw [dispatchRun_throttle d chunks sfx oracle n att i t' h horacle ht] at hmem
          simp only [List.mem_cons] at hmem
          rcases hmem with heq | heq | hmem
          · cases heq
            exact ⟨le_rfl, h, rfl⟩
          · cases heq
          · exact ih (att + 1) i k t hmem
    · rw [dispatchRun_done d chunks sfx oracle n att i h] at hmem
      simp at hmem

/-- The send loop emits only attempt and sleep events (replies and the
cooldown stamp happen in the surrounding handler). -/
theorem dispatch_no_reply (d : Nat) (chunks : List (List User)) (sfx : List Char)
    (oracle : Nat → SendResult) :
    ∀ (fuel att i : Nat) (e : Event), e ∈ (dispatchRun d chunks sfx oracle fuel att i).1 →
      (∀ s, e ≠ Event.reply s) ∧ e ≠ Event.setCooldown := by
  intro fuel
  induction fuel with
  | zero => intro att i e hmem; simp [dispatchRun_zero] at hmem
  | succ n ih =>
    intro att i e hmem
    by_cases h : i < chunks.length
    · rcases horacle : oracle att with _ | ⟨_ | t'⟩
      · rw [dispatchRun_ok d chunks sfx oracle n att i h horacle] at hmem
        simp only [List.mem_cons, List.mem_append] at hmem
        rcases hmem with rfl | hmem
        · exact ⟨fun s => by simp, by simp⟩
        · rcases hmem with hmem | hmem
          · by_cases hp : i + 1 < chunks.length <;> simp [hp] at hmem
            subst hmem
            exact ⟨fun s => by simp, by simp⟩
          · exact ih (att + 1) (i + 1) e hmem
      · rw [dispatchRun_fatal d chunks sfx oracle n att i h horacle] at hmem
        simp only [List.mem_singleton] at hmem
        subst hmem
        exact ⟨fun s => by simp, by simp⟩
      · by_cases ht : t' = 0
        · subst ht
          rw [dispatchRun_throttle0 d chunks sfx oracle n att i h horacle] at hmem
          simp only [List.mem_singleton] at hmem
          subst hmem
          exact ⟨fun s => by simp, by simp⟩
        · rw [dispatchRun_throttle d chunks sfx oracle n att i t' h horacle ht] at hmem
          simp only [List.mem_cons] at hmem
          rcases hmem with rfl | rfl | hmem
          · exact ⟨fun s => by simp, by simp⟩
          · exact ⟨fun s => by simp, by simp⟩
          · exact ih (att + 1) i e hmem
    · rw [dispatchRun_done d chunks sfx oracle n att i h] at hmem
      simp at hmem

/-- Shape of an aborted run: the abort happens at a batch index at or after
the starting one and in bounds, the trace ends with the failing attempt, and
no attempt in the trace has a larger index. -/
theorem dispatch_abort_shape (d : Nat) (chunks : List (List User)) (sfx : List Char)
    (oracle : Nat → SendResult) :
    ∀ (fuel att i j : Nat),
      (dispatchRun d chunks sfx oracle fuel att i).2 = Outcome.aborted j →
      i ≤ j ∧ ∃ hj : j < chunks.length, ∃ pre,
        (dispatchRun d chunks sfx oracle fuel att i).1 =
          pre ++ [Event.attempt j (renderBatch (chunks.get ⟨j, hj⟩) sfx)] := by
  intro fuel
  induction fuel with
  | zero => intro att i j hout; simp [dispatchRun_zero] at hout
  | succ n ih =>
    intro att i j hout
    by_cases h : i < chunks.length
    · rcases horacle : oracle att with _ | ⟨_ | t'⟩
      · -- success step: abort must come from the tail run
        rw [dispatchRun_ok d chunks sfx oracle n att i h horacle] at hout ⊢
        simp only at hout
        obtain ⟨hij, hj, pre, hpre⟩ := ih (att + 1) (i + 1) j hout
        refine ⟨by omega, hj, Event.attempt i (renderBatch (chunks.get ⟨i, h⟩) sfx) ::
          ((if i + 1 < chunks.length then [Event.sleep d] else []) ++ pre), ?_⟩
        simp only [List.cons_append, List.append_assoc]
        rw [hpre]
      · rw [dispatchRun_fatal d chunks sfx oracle n att i h horacle] at hout ⊢
        simp only [Outcome.aborted.injEq] at hout
        subst hout
        exact ⟨le_rfl, h, [], rfl⟩
      · by_cases ht : t' = 0
        · subst ht
          rw [dispatchRun_throttle0 d chunks sfx oracle n att i h horacle] at hout ⊢
          simp only [Outcome.aborted.injEq] at hout
          subst hout
          exact ⟨le_rfl, h, [], rfl⟩
        · rw [dispatchRun_throttle d chunks sfx oracle n att i t' h horacle ht] at hout ⊢
          simp only at hout
          obtain ⟨hij, hj, pre, hpre⟩ := ih (att + 1) i j hout
          refine ⟨hij, hj, Event.attempt i (renderBatch (chunks.get ⟨i, h⟩) sfx) ::
            Event.sleep ((t' + 1) * 1000) :: pre, ?_⟩
          simp only [List.cons_append]
          rw [hpre]
    · rw [dispatchRun_done d chunks sfx oracle n att i h] at hout
      simp at hout

/-- With fuel left and batches remaining, the next emitted event is the
attempt for the current batch, whatever the transport answers. -/
theorem dispatch_first_attempt (d : Nat) (chunks : List (List User)) (sfx : List Char)
    (oracle : Nat → SendResult) (n att i : Nat) (h : i < chunks.length) :
    ∃ tl, (dispatchRun d chunks sfx oracle (n + 1) att i).1 =
      Event.attempt i (renderBatch (chunks.get ⟨i, h⟩) sfx) :: tl := by
  rcases horacle : oracle att with _ | ⟨_ | t'⟩
  · rw [dispatchRun_ok d chunks sfx oracle n att i h horacle]
    exact ⟨_, rfl⟩
  · rw [dispatchRun_fatal d chunks sfx oracle n att i h horacle]
    exact ⟨[], rfl⟩
  · by_cases ht : t' = 0
    · subst ht
      rw [dispatchRun_throttle0 d chunks sfx oracle n att i h horacle]
      exact ⟨[], rfl⟩
    · rw [dispatchRun_throttle d chunks sfx oracle n att i t' h horacle ht]
      exact ⟨_, rfl⟩

/-- In an aborted run, no attempt has an index past the aborting batch. -/
theorem dispatch_abort_bound (d : Nat) (chunks : List (List User)) (sfx : List Char)
    (oracle : Nat → SendResult) :
    ∀ (fuel att i j : Nat),
      (dispatchRun d chunks sfx oracle fuel att i).2 = Outcome.aborted j →
      ∀ (k : Nat) (t : List Char),
        Event.attempt k t ∈ (dispatchRun d chunks sfx oracle fuel att i).1 → k ≤ j := by
  intro fuel
  induction fuel with
  | zero => intro att i j hout; simp [dispatchRun_zero] at hout
  | succ n ih =>
    intro att i j hout k t hmem
    by_cases h : i < chunks.length
    · rcases horacle : oracle att with _ | ⟨_ | t'⟩
      · rw [dispatchRun_ok d chunks sfx oracle n att i h horacle] at hout hmem
        simp only at hout
        have hij : i + 1 ≤ j :=
          (dispatch_abort_shape d chunks sfx oracle n (att + 1) (i + 1) j hout).1
        simp only [List.mem_cons, List.mem_append] at hmem
        rcases hmem with heq | hmem
        · cases heq; omega
        · rcases hmem with hmem | hmem
          · by_cases hp : i + 1 < chunks.length <;> simp [hp] at hmem
          · exact ih (att + 1) (i + 1) j hout k t hmem
      · rw [dispatchRun_fatal d chunks sfx oracle n att i h horacle] at hout hmem
        simp only [Outcome.aborted.injEq] at hout
        subst hout
        simp only [List.mem_singleton] at hmem
        cases hmem; exact le_rfl
      · by_cases ht : t' = 0
        · subst ht
          rw [dispatchRun_throttle0 d chunks sfx oracle n att i h horacle] at hout hmem
          simp only [Outcome.aborted.injEq] at hout
          subst hout
          simp only [List.mem_singleton] at hmem
          cases hmem; exact le_rfl
        · rw [dispatchRun_throttle d chunks sfx oracle n att i t' h horacle ht] at hout hmem
          simp only at hout
          have hij : i ≤ j :=
            (dispatch_abort_shape d chunks sfx oracle n (att + 1) i j hout).1
          simp only [List.mem_cons] at hmem
          rcases hmem with heq | heq | hmem
          · cases heq; exact hij
          · cases heq
          · exact ih (att + 1) i j hout k t hmem
    · rw [dispatchRun_done d chunks sfx oracle n att i h] at hout
      simp at hout

/-- Unfolding of the handler on the admitted full-roster path. -/
theorem handle_tagall_dispatch (m : Msg) (teams : List (List Char))
    (onlyAdmins isAdminRes : Bool) (cooldownSec : Nat) (lastRun : Option Nat) (now : Nat)
    (roster : List User) (teamMembers : List Char → List User)
    (chunkSize delayMs : Nat) (oracle : Nat → SendResult) (fuel : Nat) (tgt : Nat)
    (hparse : parseTagCommand teams (jsOrText m.text m.caption) = some TagCmd.tagall)
    (htgt : getTargetMessageId m TagCmd.tagall = some tgt)
    (hadmin : (onlyAdmins && !isAdminRes) = false)
    (hcd : checkCooldown cooldownSec lastRun now = none)
    (hroster : roster.isEmpty = false) :
    handleTagMessage true m teams onlyAdmins isAdminRes cooldownSec lastRun now roster
        teamMembers chunkSize delayMs oracle fuel =
      Event.setCooldown ::
        (dispatchRun delayMs (chunkList chunkSize roster) (mentionSuffix none) oracle fuel 0 0).1 ++
        (match (dispatchRun delayMs (chunkList chunkSize roster) (mentionSuffix none) oracle fuel 0 0).2 with
         | Outcome.aborted _ => [Event.reply genericErrorMsg]
         | _ => []) := by
  have htext : (jsOrText m.text m.caption).isEmpty = false := by
    by_contra hempty
    rw [Bool.not_eq_false] at hempty
    rw [List.isEmpty_iff.mp hempty] at hparse
    simp [parseTagCommand, firstCmdWord] at hparse
  simp only [handleTagMessage, htext, hparse, htgt, hadmin, hcd, hroster,
    Bool.not_true, not_true_eq_false, if_false, Bool.false_eq_true, if_neg]

/-- Unfolding of the handler on the admitted team path. -/
theorem handle_team_dispatch (m : Msg) (teams : List (List Char))
    (onlyAdmins isAdminRes : Bool) (cooldownSec : Nat) (lastRun : Option Nat) (now : Nat)
    (roster : List User) (teamMembers : List Char → List User)
    (chunkSize delayMs : Nat) (oracle : Nat → SendResult) (fuel : Nat) (tgt : Nat)
    (s : List Char)
    (hparse : parseTagCommand teams (jsOrText m.text m.caption) = some (TagCmd.team s))
    (htgt : getTargetMessageId m (TagCmd.team s) = some tgt)
    (hadmin : (onlyAdmins && !isAdminRes) = false)
    (hcd : checkCooldown cooldownSec lastRun now = none)
    (hteam : (teamMembers s).isEmpty = false) :
    handleTagMessage true m teams onlyAdmins isAdminRes cooldownSec lastRun now roster
        teamMembers chunkSize delayMs oracle fuel =
      Event.setCooldown ::
        (dispatchRun delayMs (chunkList chunkSize (teamMembers s)) (mentionSuffix (some s)) oracle fuel 0 0).1 ++
        (match (dispatchRun delayMs (chunkList chunkSize (teamMembers s)) (mentionSuffix (some s)) oracle fuel 0 0).2 with
         | Outcome.aborted _ => [Event.reply genericErrorMsg]
         | _ => []) := by
  have htext : (jsOrText m.text m.caption).isEmpty = false := by
    by_contra hempty
    rw [Bool.not_eq_false] at hempty
    rw [List.isEmpty_iff.mp hempty] at hparse
    simp [parseTagCommand, firstCmdWord] at hparse
  simp only [handleTagMessage, htext, hparse, htgt, hadmin, hcd, hteam,
    Bool.not_true, not_true_eq_false, if_false, Bool.false_eq_true, if_neg]

/-- C2: a throttle error with `retry_after = T` (a truthy value, `T ≥ 1`) on
batch `i` makes the dispatcher sleep `(T + 1) * 1000` ms — at least `T + 1`
seconds — and re-send the very same batch `i` with the very same text as the
next transport call, not advancing, skipping or duplicating. -/
theorem c2_throttle_retry (d : Nat) (chunks : List (List User)) (sfx : List Char)
    (oracle : Nat → SendResult) (fuel att i T : Nat)
    (hi : i < chunks.length) (hT : 1 ≤ T) (ho : oracle att = SendResult.err (some T)) :
    ∃ tl, (dispatchRun d chunks sfx oracle (fuel + 2) att i).1 =
      Event.attempt i (renderBatch (chunks.get ⟨i, hi⟩) sfx) ::
      Event.sleep ((T + 1) * 1000) ::
      Event.attempt i (renderBatch (chunks.get ⟨i, hi⟩) sfx) :: tl ∧
      1000 * (T + 1) ≤ (T + 1) * 1000 := by
  have hT0 : T ≠ 0 := by omega
  rw [dispatchRun_throttle d chunks sfx oracle (fuel + 1) att i T hi ho hT0]
  obtain ⟨tl, htl⟩ := dispatch_first_attempt d chunks sfx oracle fuel (att + 1) i hi
  exact ⟨tl, by rw [htl], by omega⟩

/-- Witness for C2: one batch, throttled with `retry_after = 3` on the first
call; the trace begins send, 4000 ms sleep, identical re-send. -/
theorem c2_throttle_retry_witness :
    ∃ tl, (dispatchRun 1200 (chunkList CHUNK [uAnn]) (mentionSuffix none)
        (fun _ => SendResult.err (some 3)) 2 0 0).1 =
      Event.attempt 0 (renderBatch ((chunkList CHUNK [uAnn]).get ⟨0, by decide⟩) (mentionSuffix none)) ::
      Event.sleep ((3 + 1) * 1000) ::
      Event.attempt 0 (renderBatch ((chunkList CHUNK [uAnn]).get ⟨0, by decide⟩) (mentionSuffix none)) :: tl ∧
      1000 * (3 + 1) ≤ (3 + 1) * 1000 :=
  c2_throttle_retry 1200 (chunkList CHUNK [uAnn]) (mentionSuffix none)
    (fun _ => SendResult.err (some 3)) 0 0 0 3 (by decide) (by decide) rfl

/-- C3: a non-throttle transport error on batch `j` aborts the dispatch — no
batch after `j` is attempted and the trace ends at the failing attempt (the
already-delivered earlier batches stand, nothing is retracted) — and the
handler's catch block answers the invoking chat with exactly one generic
failure reply. -/
theorem c3_fatal_abort :
    (∀ (d : Nat) (chunks : List (List User)) (sfx : List Char) (oracle : Nat → SendResult)
        (fuel att i j : Nat),
      (dispatchRun d chunks sfx oracle fuel att i).2 = Outcome.aborted j →
        (∀ (k : Nat) (t : List Char),
          Event.attempt k t ∈ (dispatchRun d chunks sfx oracle fuel att i).1 → k ≤ j) ∧
        (∃ hj : j < chunks.length, ∃ pre,
          (dispatchRun d chunks sfx oracle fuel att i).1 =
            pre ++ [Event.attempt j (renderBatch (chunks.get ⟨j, hj⟩) sfx)])) ∧
    (∀ (m : Msg) (teams : List (List Char)) (onlyAdmins isAdminRes : Bool)
        (cooldownSec : Nat) (lastRun : Option Nat) (now : Nat)
        (roster : List User) (teamMembers : List Char → List User)
        (chunkSize delayMs : Nat) (oracle : Nat → SendResult) (fuel tgt j : Nat),
      parseTagCommand teams (jsOrText m.text m.caption) = some TagCmd.tagall →
      getTargetMessageId m TagCmd.tagall = some tgt →
      (onlyAdmins && !isAdminRes) = false →
      checkCooldown cooldownSec lastRun now = none →
      roster.isEmpty = false →
      (dispatchRun delayMs (chunkList chunkSize roster) (mentionSuffix none) oracle fuel 0 0).2 =
        Outcome.aborted j →
      handleTagMessage true m teams onlyAdmins isAdminRes cooldownSec lastRun now roster
          teamMembers chunkSize delayMs oracle fuel =
        Event.setCooldown ::
          (dispatchRun delayMs (chunkList chunkSize roster) (mentionSuffix none) oracle fuel 0 0).1 ++
          [Event.reply genericErrorMsg] ∧
      (handleTagMessage true m teams onlyAdmins isAdminRes cooldownSec lastRun now roster
          teamMembers chunkSize delayMs oracle fuel).countP isReplyEvent = 1) ∧
    (∀ (m : Msg) (teams : List (List Char)) (onlyAdmins isAdminRes : Bool)
        (cooldownSec : Nat) (lastRun : Option Nat) (now : Nat)
        (roster : List User) (teamMembers : List Char → List User)
        (chunkSize delayMs : Nat) (oracle : Nat → SendResult) (fuel tgt j : Nat)
        (s : List Char),
      parseTagCommand teams (jsOrText m.text m.caption) = some (TagCmd.team s) →
      getTargetMessageId m (TagCmd.team s) = some tgt →
      (onlyAdmins && !isAdminRes) = false →
      checkCooldown cooldownSec lastRun now = none →
      (teamMembers s).isEmpty = false →
      (dispatchRun delayMs (chunkList chunkSize (teamMembers s)) (mentionSuffix (some s)) oracle fuel 0 0).2 =
        Outcome.aborted j →
      handleTagMessage true m teams onlyAdmins isAdminRes cooldownSec lastRun now roster
          teamMembers chunkSize delayMs oracle fuel =
        Event.setCooldown ::
          (dispatchRun delayMs (chunkList chunkSize (teamMembers s)) (mentionSuffix (some s)) oracle fuel 0 0).1 ++
          [Event.reply genericErrorMsg] ∧
      (handleTagMessage true m teams onlyAdmins isAdminRes cooldownSec lastRun now roster
          teamMembers chunkSize delayMs oracle fuel).countP isReplyEvent = 1) := by
  have hnone : ∀ (d' : Nat) (chunks' : List (List User)) (sfx' : List Char)
      (oracle' : Nat → SendResult) (fuel' att' i' : Nat),
      ∀ e ∈ (dispatchRun d' chunks' sfx' oracle' fuel' att' i').1, ¬ isReplyEvent e = true := by
    intro d' chunks' sfx' oracle' fuel' att' i' e he
    obtain ⟨hr, _⟩ := dispatch_no_reply d' chunks' sfx' oracle' fuel' att' i' e he
    cases e with
    | reply s => exact absurd rfl (hr s)
    | setCooldown => simp [isReplyEvent]
    | attempt i t => simp [isReplyEvent]
    | sleep ms => simp [isReplyEvent]
  refine ⟨?_, ?_, ?_⟩
  · intro d chunks sfx oracle fuel att i j hout
    refine ⟨dispatch_abort_bound d chunks sfx oracle fuel att i j hout, ?_⟩
    exact (dispatch_abort_shape d chunks sfx oracle fuel att i j hout).2
  · intro m teams onlyAdmins isAdminRes cooldownSec lastRun now roster teamMembers
      chunkSize delayMs oracle fuel tgt j hparse htgt hadmin hcd hroster habort
    have hunfold := handle_tagall_dispatch m teams onlyAdmins isAdminRes cooldownSec lastRun
      now roster teamMembers chunkSize delayMs oracle fuel tgt hparse htgt hadmin hcd hroster
    rw [habort] at hunfold
    refine ⟨hunfold, ?_⟩
    rw [hunfold]
    simp only [List.countP_cons, List.countP_append, isReplyEvent]
    rw [List.countP_eq_zero.mpr (hnone delayMs (chunkList chunkSize roster)
      (mentionSuffix none) oracle fuel 0 0)]
    rfl
  · intro m teams onlyAdmins isAdminRes cooldownSec lastRun now roster teamMembers
      chunkSize delayMs oracle fuel tgt j s hparse htgt hadmin hcd hteam habort
    have hunfold := handle_team_dispatch m teams onlyAdmins isAdminRes cooldownSec lastRun
      now roster teamMembers chunkSize delayMs oracle fuel tgt s hparse htgt hadmin hcd hteam
    rw [habort] at hunfold
    refine ⟨hunfold, ?_⟩
    rw [hunfold]
    simp only [List.countP_cons, List.countP_append, isReplyEvent]
    rw [List.countP_eq_zero.mpr (hnone delayMs (chunkList chunkSize (teamMembers s))
      (mentionSuffix (some s)) oracle fuel 0 0)]
    rfl

/-- Witness for C3: two batches, a fatal (no `retry_after`) error on the very
first send; one failure reply, no second batch. -/
theorem c3_fatal_abort_witness :
    (∀ (k : Nat) (t : List Char),
      Event.attempt k t ∈ (dispatchRun 1200 (chunkList 1 [uAnn, uBob]) (mentionSuffix none)
        (fun _ => SendResult.err none) 5 0 0).1 → k ≤ 0) ∧
    (handleTagMessage true ⟨100, some 50, some "/tagall".toList, none,
        false, false, false, false, false, false, false⟩ [] false false 60 none 99999
        [uAnn, uBob] (fun _ => []) 1 1200 (fun _ => SendResult.err none) 5).countP isReplyEvent = 1 :=
  ⟨((c3_fatal_abort.1 1200 (chunkList 1 [uAnn, uBob]) (mentionSuffix none)
      (fun _ => SendResult.err none) 5 0 0 0) rfl).1,
   ((c3_fatal_abort.2.1 ⟨100, some 50, some "/tagall".toList, none,
      false, false, false, false, false, false, false⟩ [] false false 60 none 99999
      [uAnn, uBob] (fun _ => []) 1 1200 (fun _ => SendResult.err none) 5 50 0
      (by decide) (by decide) rfl rfl rfl rfl)).2⟩

/-- C4: for a cooldown of `D > 0` seconds stamped at a real timestamp `t0`
(milliseconds, positive), an invocation `e` whole seconds later is rejected
with remaining wait `D - e` (the ceiling of `D - e`) whenever `e < D` — in
particular exactly 1 second at `e = D - 1` — and is not rejected by the
cooldown check from `e = D` on.  At millisecond granularity `em`, the
reported wait `r` is characterised as the ceiling of `(1000·D - em) / 1000`
seconds. -/
theorem c4_cooldown_gate (D t0 : Nat) (hD : 0 < D) (ht0 : 0 < t0) :
    (∀ e : Nat, e < D → checkCooldown D (some t0) (t0 + 1000 * e) = some (D - e)) ∧
    checkCooldown D (some t0) (t0 + 1000 * (D - 1)) = some 1 ∧
    (∀ e : Nat, D ≤ e → checkCooldown D (some t0) (t0 + 1000 * e) = none) ∧
    (∀ em : Nat, em < 1000 * D → ∃ r : Nat,
      checkCooldown D (some t0) (t0 + em) = some r ∧
      1000 * D - em ≤ 1000 * r ∧ 1000 * r < 1000 * D - em + 1000) := by
  have hD0 : ¬ D = 0 := by omega
  have ht00 : ¬ t0 = 0 := by omega
  refine ⟨?_, ?_, ?_, ?_⟩
  · intro e he
    simp only [checkCooldown, hD0, ht00, if_false, if_neg]
    rw [if_pos (by omega)]
    congr 1
    omega
  · simp only [checkCooldown, hD0, ht00, if_false, if_neg]
    rw [if_pos (by omega)]
    congr 1
    omega
  · intro e he
    simp only [checkCooldown, hD0, ht00, if_false, if_neg]
    rw [if_neg (by omega)]
  · intro em hem
    simp only [checkCooldown, hD0, ht00, if_false, if_neg]
    rw [if_pos (by omega)]
    refine ⟨(D * 1000 - (t0 + em - t0) + 999) / 1000, rfl, ?_, ?_⟩ <;> omega

/-- Witness for C4 at the default 60-second cooldown: rejected with 1 second
left at 59 s, admitted at 60 s, and the 500 ms case reports the ceiling 60. -/
theorem c4_cooldown_gate_witness :
    checkCooldown COOLDOWN_SEC (some 5000) (5000 + 1000 * 59) = some 1 ∧
    checkCooldown COOLDOWN_SEC (some 5000) (5000 + 1000 * 60) = none ∧
    (∃ r : Nat, checkCooldown COOLDOWN_SEC (some 5000) (5000 + 500) = some r ∧
      1000 * COOLDOWN_SEC - 500 ≤ 1000 * r ∧ 1000 * r < 1000 * COOLDOWN_SEC - 500 + 1000) :=
  ⟨by
    have h := (c4_cooldown_gate COOLDOWN_SEC 5000 (by decide) (by decide)).1 59 (by decide)
    simpa using h,
   (c4_cooldown_gate COOLDOWN_SEC 5000 (by decide) (by decide)).2.2.1 60 (by decide),
   (c4_cooldown_gate COOLDOWN_SEC 5000 (by decide) (by decide)).2.2.2 500 (by decide)⟩

/-- Every handler trace is empty, a single reply, or starts with the cooldown
stamp. -/
theorem handle_shape (isGroup : Bool) (m : Msg) (teams : List (List Char))
    (onlyAdmins isAdminRes : Bool) (cooldownSec : Nat) (lastRun : Option Nat) (now : Nat)
    (roster : List User) (teamMembers : List Char → List User)
    (chunkSize delayMs : Nat) (oracle : Nat → SendResult) (fuel : Nat) :
    handleTagMessage isGroup m teams onlyAdmins isAdminRes cooldownSec lastRun now roster
        teamMembers chunkSize delayMs oracle fuel = [] ∨
    (∃ s, handleTagMessage isGroup m teams onlyAdmins isAdminRes cooldownSec lastRun now roster
        teamMembers chunkSize delayMs oracle fuel = [Event.reply s]) ∨
    (∃ rest, handleTagMessage isGroup m teams onlyAdmins isAdminRes cooldownSec lastRun now roster
        teamMembers chunkSize delayMs oracle fuel = Event.setCooldown :: rest) := by
  simp only [handleTagMessage]
  repeat' split
  all_goals
    first
    | (left; rfl)
    | (right; left; exact ⟨_, rfl⟩)
    | (right; right; exact ⟨_, rfl⟩)

/-- C5: in every handler trace, any batch-send attempt is strictly preceded
by the cooldown stamp — the stamp is the first event of the trace and the
attempt comes after it, so no batch is ever sent before the per-chat cooldown
timestamp has been written. -/
theorem c5_cooldown_stamp_before_send (isGroup : Bool) (m : Msg) (teams : List (List Char))
    (onlyAdmins isAdminRes : Bool) (cooldownSec : Nat) (lastRun : Option Nat) (now : Nat)
    (roster : List User) (teamMembers : List Char → List User)
    (chunkSize delayMs : Nat) (oracle : Nat → SendResult) (fuel : Nat)
    (j i : Nat) (t : List Char)
    (hatt : (handleTagMessage isGroup m teams onlyAdmins isAdminRes cooldownSec lastRun now
      roster teamMembers chunkSize delayMs oracle fuel)[j]? = some (Event.attempt i t)) :
    (handleTagMessage isGroup m teams onlyAdmins isAdminRes cooldownSec lastRun now roster
      teamMembers chunkSize delayMs oracle fuel).head? = some Event.setCooldown ∧ 0 < j := by
  rcases handle_shape isGroup m teams onlyAdmins isAdminRes cooldownSec lastRun now roster
    teamMembers chunkSize delayMs oracle fuel with hnil | ⟨s, hone⟩ | ⟨rest, hcons⟩
  · rw [hnil] at hatt
    simp at hatt
  · rw [hone] at hatt
    rcases j with _ | j'
    · simp at hatt
    · simp at hatt
  · rw [hcons] at hatt ⊢
    refine ⟨rfl, ?_⟩
    rcases Nat.eq_zero_or_pos j with rfl | hpos
    · simp at hatt
    · exact hpos

/-- Witness for C5: a concrete admitted full-roster dispatch whose second
trace entry is the first batch attempt; the stamp is entry zero. -/
theorem c5_cooldown_stamp_before_send_witness :
    (handleTagMessage true ⟨100, some 50, some "/tagall".toList, none,
        false, false, false, false, false, false, false⟩ [] false false 60 none 99999
        [uAnn] (fun _ => []) 20 1200 (fun _ => SendResult.ok) 3).head? =
      some Event.setCooldown ∧ 0 < 1 :=
  c5_cooldown_stamp_before_send true ⟨100, some 50, some "/tagall".toList, none,
    false, false, false, false, false, false, false⟩ [] false false 60 none 99999
    [uAnn] (fun _ => []) 20 1200 (fun _ => SendResult.ok) 3 1 0
    (renderBatch (chunkList 20 [uAnn]).head! (mentionSuffix none)) (by decide)

/-! ## Lemmas about HTML escaping -/

theorem replaceAllChar_append (p : Char) (rep a b : List Char) :
    replaceAllChar p rep (a ++ b) = replaceAllChar p rep a ++ replaceAllChar p rep b := by
  induction a with
  | nil => rfl
  | cons c cs ih => simp [replaceAllChar, ih]

theorem escapeHtml_append (a b : List Char) :
    escapeHtml (a ++ b) = escapeHtml a ++ escapeHtml b := by
  simp [escapeHtml, replaceAllChar_append]

theorem escapeHtml_singleton (c : Char) : escapeHtml [c] = esc c := by
  by_cases h1 : c = '&'
  · subst h1; decide
  by_cases h2 : c = '<'
  · subst h2; decide
  by_cases h3 : c = '>'
  · subst h3; decide
  by_cases h4 : c = '"'
  · subst h4; decide
  simp [escapeHtml, replaceAllChar, esc, h1, h2, h3, h4]

/-- The four chained `replaceAll` calls of `escapeHtml` compute exactly the
simultaneous single-pass substitution: escaping `&` first means the `&` of an
inserted entity is never re-escaped. -/
theorem escapeHtml_eq_sub (s : List Char) : escapeHtml s = htmlEntitySub s := by
  induction s with
  | nil => rfl
  | cons c cs ih =>
    have hsplit : c :: cs = [c] ++ cs := rfl
    rw [hsplit, escapeHtml_append, escapeHtml_singleton, ih]
    rfl

theorem esc_not_special (c : Char) (h1 : c ≠ '&') (h2 : c ≠ '<') (h3 : c ≠ '>')
    (h4 : c ≠ '"') : esc c = [c] := by
  simp [esc, h1, h2, h3, h4]

theorem wordChar_esc (c : Char) (h : isWordChar c = true) : esc c = [c] := by
  refine esc_not_special c ?_ ?_ ?_ ?_ <;> (rintro rfl; revert h; decide)

theorem toUpperJS_esc (c : Char) (h : isWordChar c = true) :
    esc (toUpperJS c) = [toUpperJS c] := by
  unfold toUpperJS
  rcases hf : asciiCasePairs.find? (fun p => p.1 == c) with _ | p
  · simp only [hf]
    exact wordChar_esc c h
  · simp only [hf]
    have hmem : p ∈ asciiCasePairs := List.mem_of_find?_eq_some hf
    revert hmem
    have hall : ∀ q ∈ asciiCasePairs, esc q.2 = [q.2] := by decide
    exact hall p

theorem toLowerJS_esc (c : Char) (h : isWordChar c = true) :
    esc (toLowerJS c) = [toLowerJS c] := by
  unfold toLowerJS
  rcases hf : asciiCasePairs.find? (fun p => p.2 == c) with _ | p
  · simp only [hf]
    exact wordChar_esc c h
  · simp only [hf]
    have hmem : p ∈ asciiCasePairs := List.mem_of_find?_eq_some hf
    revert hmem
    have hall : ∀ q ∈ asciiCasePairs, esc q.1 = [q.1] := by decide
    exact hall p

theorem htmlEntitySub_id (l : List Char) (h : ∀ x ∈ l, esc x = [x]) :
    htmlEntitySub l = l := by
  induction l with
  | nil => rfl
  | cons c cs ih =>
    simp only [htmlEntitySub, h c (List.mem_cons_self c cs)]
    rw [ih (fun x hx => h x (List.mem_cons_of_mem c hx))]
    rfl

/-- On a capitalised word-character slug, `escapeHtml` is the identity. -/
theorem escapeHtml_wordLabel (c : Char) (cs : List Char)
    (hc : isWordChar c = true) (hcs : ∀ x ∈ cs, isWordChar x = true) :
    escapeHtml (toUpperJS c :: cs.map toLowerJS) = toUpperJS c :: cs.map toLowerJS := by
  rw [escapeHtml_eq_sub]
  apply htmlEntitySub_id
  intro x hx
  rcases List.mem_cons.mp hx with rfl | hx'
  · exact toUpperJS_esc c hc
  · obtain ⟨y, hy, rfl⟩ := List.mem_map.mp hx'
    exact toLowerJS_esc y (hcs y hy)

/-- C9: the link text of a rendered mention token is the display name with
every occurrence of `&`, `<`, `>`, `"` replaced by its HTML entity
(`htmlEntitySub`); in particular the rendered link text contains no raw `<`,
`>` or `"` at all, and a name containing `<script>` renders with `<` and `>`
escaped. -/
theorem c9_mention_escaping (u : User) :
    escapeHtml (displayName u) = htmlEntitySub (displayName u) ∧
    mentionHtml u = "<a href=\"tg://user?id=".toList ++ Nat.toDigits 10 u.user_id ++
      "\">".toList ++ htmlEntitySub (displayName u) ++ "</a>".toList ∧
    (escapeHtml (displayName u)).all
      (fun c => (c != '<') && (c != '>') && (c != '"')) = true ∧
    escapeHtml "<script>".toList = "&lt;script&gt;".toList := by
  refine ⟨escapeHtml_eq_sub (displayName u), ?_, ?_, by decide⟩
  · unfold mentionHtml
    rw [escapeHtml_eq_sub]
  · rw [escapeHtml_eq_sub]
    generalize displayName u = s
    induction s with
    | nil => rfl
    | cons c cs ih =>
      simp only [htmlEntitySub, List.all_append, ih, Bool.and_true]
      by_cases h2 : c = '<'
      · subst h2; decide
      by_cases h3 : c = '>'
      · subst h3; decide
      by_cases h4 : c = '"'
      · subst h4; decide
      by_cases h1 : c = '&'
      · subst h1; decide
      rw [esc_not_special c h1 h2 h3 h4]
      simp [h2, h3, h4]

/-- The text of every attempt of a send loop run with the team suffix. -/
theorem team_batches_text (members : List User) (k d : Nat)
    (oracle : Nat → SendResult) (fuel att i0 : Nat) (c : Char) (cs : List Char)
    (hword : ∀ x ∈ c :: cs, isWordChar x = true) :
    ∀ (i : Nat) (t : List Char),
      Event.attempt i t ∈
        (dispatchRun d (chunkList k members) (mentionSuffix (some (c :: cs))) oracle fuel att i0).1 →
      ∃ h : i < (chunkList k members).length,
        t = List.intercalate " | ".toList (((chunkList k members).get ⟨i, h⟩).map mentionHtml)
            ++ '\n' :: ((toUpperJS c :: cs.map toLowerJS) ++ ", для вас важное сообщение!".toList) := by
  intro i t hmem
  obtain ⟨-, h, ht⟩ := dispatch_attempt_mem d (chunkList k members)
    (mentionSuffix (some (c :: cs))) oracle fuel att i0 i t hmem
  refine ⟨h, ?_⟩
  rw [ht]
  unfold renderBatch mentionSuffix teamLabelForMessage MENTION_SEPARATOR
  rw [escapeHtml_wordLabel c cs (hword c (List.mem_cons_self c cs))
    (fun x hx => hword x (List.mem_cons_of_mem c hx))]

/-- The text of every attempt of a send loop run with the roster suffix. -/
theorem roster_batches_text (members : List User) (k d : Nat)
    (oracle : Nat → SendResult) (fuel att i0 : Nat) :
    ∀ (i : Nat) (t : List Char),
      Event.attempt i t ∈
        (dispatchRun d (chunkList k members) (mentionSuffix none) oracle fuel att i0).1 →
      ∃ h : i < (chunkList k members).length,
        t = List.intercalate " | ".toList (((chunkList k members).get ⟨i, h⟩).map mentionHtml)
            ++ '\n' :: "Все, для вас важное сообщение!".toList := by
  intro i t hmem
  obtain ⟨-, h, ht⟩ := dispatch_attempt_mem d (chunkList k members)
    (mentionSuffix none) oracle fuel att i0 i t hmem
  refine ⟨h, ?_⟩
  rw [ht]
  unfold renderBatch mentionSuffix teamLabelForMessage MENTION_SEPARATOR
  have hesc : escapeHtml "Все".toList = "Все".toList := by decide
  have hconcat : "Все".toList ++ ", для вас важное сообщение!".toList =
      "Все, для вас важное сообщение!".toList := by decide
  rw [hesc, hconcat]

/-- An attempt event of an admitted team-path handler trace comes from its
send loop. -/
theorem handler_team_attempt_mem (m : Msg) (teams : List (List Char))
    (onlyAdmins isAdminRes : Bool) (cooldownSec : Nat) (lastRun : Option Nat) (now : Nat)
    (roster : List User) (teamMembers : List Char → List User)
    (chunkSize delayMs : Nat) (oracle : Nat → SendResult) (fuel : Nat) (tgt : Nat)
    (s : List Char)
    (hparse : parseTagCommand teams (jsOrText m.text m.caption) = some (TagCmd.team s))
    (htgt : getTargetMessageId m (TagCmd.team s) = some tgt)
    (hadmin : (onlyAdmins && !isAdminRes) = false)
    (hcd : checkCooldown cooldownSec lastRun now = none)
    (hteam : (teamMembers s).isEmpty = false)
    (i : Nat) (t : List Char)
    (hmem : Event.attempt i t ∈ handleTagMessage true m teams onlyAdmins isAdminRes
      cooldownSec lastRun now roster teamMembers chunkSize delayMs oracle fuel) :
    Event.attempt i t ∈
      (dispatchRun delayMs (chunkList chunkSize (teamMembers s)) (mentionSuffix (some s)) oracle fuel 0 0).1 := by
  rw [handle_team_dispatch m teams onlyAdmins isAdminRes cooldownSec lastRun now roster
    teamMembers chunkSize delayMs oracle fuel tgt s hparse htgt hadmin hcd hteam] at hmem
  rcases hout : (dispatchRun delayMs (chunkList chunkSize (teamMembers s))
      (mentionSuffix (some s)) oracle fuel 0 0).2 with _ | j | _ <;>
    rw [hout] at hmem <;> simp only [List.mem_cons, List.mem_append] at hmem <;>
    [skip; skip; skip] <;> rcases hmem with hmem | hmem <;>
    simp_all

/-- An attempt event of an admitted roster-path handler trace comes from its
send loop. -/
theorem handler_tagall_attempt_mem (m : Msg) (teams : List (List Char))
    (onlyAdmins isAdminRes : Bool) (cooldownSec : Nat) (lastRun : Option Nat) (now : Nat)
    (roster : List User) (teamMembers : List Char → List User)
    (chunkSize delayMs : Nat) (oracle : Nat → SendResult) (fuel : Nat) (tgt : Nat)
    (hparse : parseTagCommand teams (jsOrText m.text m.caption) = some TagCmd.tagall)
    (htgt : getTargetMessageId m TagCmd.tagall = some tgt)
    (hadmin : (onlyAdmins && !isAdminRes) = false)
    (hcd : checkCooldown cooldownSec lastRun now = none)
    (hroster : roster.isEmpty = false)
    (i : Nat) (t : List Char)
    (hmem : Event.attempt i t ∈ handleTagMessage true m teams onlyAdmins isAdminRes
      cooldownSec lastRun now roster teamMembers chunkSize delayMs oracle fuel) :
    Event.attempt i t ∈
      (dispatchRun delayMs (chunkList chunkSize roster) (mentionSuffix none) oracle fuel 0 0).1 := by
  rw [handle_tagall_dispatch m teams onlyAdmins isAdminRes cooldownSec lastRun now roster
    teamMembers chunkSize delayMs oracle fuel tgt hparse htgt hadmin hcd hroster] at hmem
  rcases hout : (dispatchRun delayMs (chunkList chunkSize roster)
      (mentionSuffix none) oracle fuel 0 0).2 with _ | j | _ <;>
    rw [hout] at hmem <;> simp only [List.mem_cons, List.mem_append] at hmem <;>
    [skip; skip; skip] <;> rcases hmem with hmem | hmem <;>
    simp_all

/-- C7: in a team dispatch (slug a non-empty `\w` word, as `SLUG_REGEX`
guarantees for every stored slug), every batch message — not only the first —
is the batch's mention tokens joined by `" | "` followed by a trailing line
that opens with the team name capitalised: first character upper-cased, the
rest lower-cased.  Stated for every run of the send loop with a team suffix,
and for every batch attempt of an admitted team-command handler trace. -/
theorem c7_team_label_every_batch :
    (∀ (members : List User) (k d : Nat) (oracle : Nat → SendResult)
        (fuel att i0 : Nat) (c : Char) (cs : List Char),
      (∀ x ∈ c :: cs, isWordChar x = true) →
      ∀ (i : Nat) (t : List Char),
        Event.attempt i t ∈
          (dispatchRun d (chunkList k members) (mentionSuffix (some (c :: cs))) oracle fuel att i0).1 →
        ∃ h : i < (chunkList k members).length,
          t = List.intercalate " | ".toList (((chunkList k members).get ⟨i, h⟩).map mentionHtml)
              ++ '\n' :: ((toUpperJS c :: cs.map toLowerJS) ++ ", для вас важное сообщение!".toList)) ∧
    (∀ (m : Msg) (teams : List (List Char)) (onlyAdmins isAdminRes : Bool)
        (cooldownSec : Nat) (lastRun : Option Nat) (now : Nat)
        (roster : List User) (teamMembers : List Char → List User)
        (chunkSize delayMs : Nat) (oracle : Nat → SendResult) (fuel tgt : Nat)
        (c : Char) (cs : List Char),
      parseTagCommand teams (jsOrText m.text m.caption) = some (TagCmd.team (c :: cs)) →
      getTargetMessageId m (TagCmd.team (c :: cs)) = some tgt →
      (onlyAdmins && !isAdminRes) = false →
      checkCooldown cooldownSec lastRun now = none →
      (teamMembers (c :: cs)).isEmpty = false →
      (∀ x ∈ c :: cs, isWordChar x = true) →
      ∀ (i : Nat) (t : List Char),
        Event.attempt i t ∈ handleTagMessage true m teams onlyAdmins isAdminRes cooldownSec
          lastRun now roster teamMembers chunkSize delayMs oracle fuel →
        ∃ h : i < (chunkList chunkSize (teamMembers (c :: cs))).length,
          t = List.intercalate " | ".toList
                (((chunkList chunkSize (teamMembers (c :: cs))).get ⟨i, h⟩).map mentionHtml)
              ++ '\n' :: ((toUpperJS c :: cs.map toLowerJS) ++ ", для вас важное сообщение!".toList)) := by
  refine ⟨team_batches_text, ?_⟩
  intro m teams onlyAdmins isAdminRes cooldownSec lastRun now roster teamMembers
    chunkSize delayMs oracle fuel tgt c cs hparse htgt hadmin hcd hteam hword i t hmem
  exact team_batches_text (teamMembers (c :: cs)) chunkSize delayMs oracle fuel 0 0 c cs hword i t
    (handler_team_attempt_mem m teams onlyAdmins isAdminRes cooldownSec lastRun now roster
      teamMembers chunkSize delayMs oracle fuel tgt (c :: cs) hparse htgt hadmin hcd hteam i t hmem)

/-- Witness for C7: team `myTeam`, two one-user batches; the second batch's
text also carries the capitalised label line. -/
theorem c7_team_label_every_batch_witness :
    ∃ h : 1 < (chunkList 1 [uAnn, uBob]).length,
      renderBatch ((chunkList 1 [uAnn, uBob]).get ⟨1, h⟩) (mentionSuffix (some "myTeam".toList)) =
        List.intercalate " | ".toList (((chunkList 1 [uAnn, uBob]).get ⟨1, h⟩).map mentionHtml)
          ++ '\n' :: ((toUpperJS 'm' :: "yTeam".toList.map toLowerJS) ++ ", для вас важное сообщение!".toList) :=
  c7_team_label_every_batch.1 [uAnn, uBob] 1 1200 (fun _ => SendResult.ok) 3 0 0
    'm' "yTeam".toList (by decide) 1
    (renderBatch ((chunkList 1 [uAnn, uBob]).get ⟨1, by decide⟩) (mentionSuffix (some "myTeam".toList)))
    (by decide)

/-- C10: the trailing label line is not restricted to team dispatches — in a
full-roster dispatch every batch also ends with it, with the fixed label
`Все` in place of a team name.  Stated for every run of the send loop with
the roster suffix, and for every batch attempt of an admitted `/tagall`
handler trace. -/
theorem c10_roster_label_every_batch :
    (∀ (members : List User) (k d : Nat) (oracle : Nat → SendResult) (fuel att i0 : Nat),
      ∀ (i : Nat) (t : List Char),
        Event.attempt i t ∈
          (dispatchRun d (chunkList k members) (mentionSuffix none) oracle fuel att i0).1 →
        ∃ h : i < (chunkList k members).length,
          t = List.intercalate " | ".toList (((chunkList k members).get ⟨i, h⟩).map mentionHtml)
              ++ '\n' :: "Все, для вас важное сообщение!".toList) ∧
    (∀ (m : Msg) (teams : List (List Char)) (onlyAdmins isAdminRes : Bool)
        (cooldownSec : Nat) (lastRun : Option Nat) (now : Nat)
        (roster : List User) (teamMembers : List Char → List User)
        (chunkSize delayMs : Nat) (oracle : Nat → SendResult) (fuel tgt : Nat),
      parseTagCommand teams (jsOrText m.text m.caption) = some TagCmd.tagall →
      getTargetMessageId m TagCmd.tagall = some tgt →
      (onlyAdmins && !isAdminRes) = false →
      checkCooldown cooldownSec lastRun now = none →
      roster.isEmpty = false →
      ∀ (i : Nat) (t : List Char),
        Event.attempt i t ∈ handleTagMessage true m teams onlyAdmins isAdminRes cooldownSec
          lastRun now roster teamMembers chunkSize delayMs oracle fuel →
        ∃ h : i < (chunkList chunkSize roster).length,
          t = List.intercalate " | ".toList
                (((chunkList chunkSize roster).get ⟨i, h⟩).map mentionHtml)
              ++ '\n' :: "Все, для вас важное сообщение!".toList) := by
  refine ⟨roster_batches_text, ?_⟩
  intro m teams onlyAdmins isAdminRes cooldownSec lastRun now roster teamMembers
    chunkSize delayMs oracle fuel tgt hparse htgt hadmin hcd hroster i t hmem
  exact roster_batches_text roster chunkSize delayMs oracle fuel 0 0 i t
    (handler_tagall_attempt_mem m teams onlyAdmins isAdminRes cooldownSec lastRun now roster
      teamMembers chunkSize delayMs oracle fuel tgt hparse htgt hadmin hcd hroster i t hmem)

/-- Witness for C10: two one-user roster batches; the second batch also ends
with the `Все` label line. -/
theorem c10_roster_label_every_batch_witness :
    ∃ h : 1 < (chunkList 1 [uAnn, uBob]).length,
      renderBatch ((chunkList 1 [uAnn, uBob]).get ⟨1, h⟩) (mentionSuffix none) =
        List.intercalate " | ".toList (((chunkList 1 [uAnn, uBob]).get ⟨1, h⟩).map mentionHtml)
          ++ '\n' :: "Все, для вас важное сообщение!".toList :=
  c10_roster_label_every_batch.1 [uAnn, uBob] 1 1200 (fun _ => SendResult.ok) 3 0 0 1
    (renderBatch ((chunkList 1 [uAnn, uBob]).get ⟨1, by decide⟩) (mentionSuffix none))
    (by decide)

/-- Counterexample to C8 as stated: in a chat whose team table stores the
slug `TagAll`, the command token `/tagall` — whose word differs from that
stored slug only in letter case — does *not* resolve to the team: the parser
classifies it as the reserved full-roster command before the team lookup is
ever consulted, so the full roster, not the team's member list, is
dispatched. -/
theorem c8_counterexample :
    parseTagCommand ["TagAll".toList] ('/' :: "tagall".toList) = some TagCmd.tagall ∧
    parseTagCommand ["TagAll".toList] ('/' :: "tagall".toList) ≠
      some (TagCmd.team "TagAll".toList) ∧
    "tagall".toList ≠ "TagAll".toList ∧
    "tagall".toList.map toLowerJS = "TagAll".toList.map toLowerJS := by
  decide

/-- C8 as amended: a command token whose word differs from a stored team slug
only in letter case resolves to that team, with the stored slug's casing —
provided the word does not begin with `tagall` case-insensitively (the
reserved command, checked first, shadows such slugs) and the slug is the
first case-insensitive match in the team table (stored slugs that collide
case-insensitively are resolved to the first one). -/
theorem c8_team_resolution_amended (teams : List (List Char)) (s w : List Char)
    (hw : w ≠ []) (hword : ∀ x ∈ w, isWordChar x = true)
    (hnotres : (w.take 6).map toLowerJS ≠ "tagall".toList)
    (hfind : List.find? (fun t => t.map toLowerJS == w.map toLowerJS) teams = some s) :
    parseTagCommand teams ('/' :: w) = some (TagCmd.team s) := by
  have htake : w.takeWhile isWordChar = w := List.takeWhile_eq_self_iff.mpr hword
  have hcmd : firstCmdWord ('/' :: w) = some (w.map toLowerJS) := by
    unfold firstCmdWord
    rw [if_pos rfl, if_neg hnotres, htake]
    cases w with
    | nil => exact absurd rfl hw
    | cons a as => rfl
  have hne : w.map toLowerJS ≠ "tagall".toList := by
    intro heq
    apply hnotres
    have hlen : w.length = 6 := by
      have := congrArg List.length heq
      simpa using this
    rw [List.take_of_length_le (by omega), heq]
  unfold parseTagCommand
  rw [hcmd]
  simp only [if_neg hne, hfind]

/-- Witness for the amended C8: stored slug `Friends`, token `/fRiEnDs`. -/
theorem c8_team_resolution_amended_witness :
    parseTagCommand ["Friends".toList] ('/' :: "fRiEnDs".toList) =
      some (TagCmd.team "Friends".toList) :=
  c8_team_resolution_amended ["Friends".toList] "Friends".toList "fRiEnDs".toList
    (by decide) (by decide) (by decide) (by decide)

/-- C6: target-message resolution.  A reply always targets the replied-to
message, whatever else the command message carries.  With no reply, the
command message itself is the target exactly when it has extra content —
non-text media or non-empty residual text after stripping the command token —
and otherwise there is no target: the handler sends no batch and answers with
the usage hint. -/
theorem c6_target_resolution :
    (∀ (m : Msg) (cmd : TagCmd) (r : Nat),
      m.reply_to = some r → getTargetMessageId m cmd = some r) ∧
    (∀ (m : Msg) (cmd : TagCmd), m.reply_to = none →
      (getTargetMessageId m cmd = some m.message_id ↔
        messageHasExtraContent m (cmdToken cmd) = true) ∧
      (messageHasExtraContent m (cmdToken cmd) = false → getTargetMessageId m cmd = none) ∧
      messageHasExtraContent m (cmdToken cmd) =
        (m.hasPhoto || m.hasVideo || m.hasDocument || m.hasAudio || m.hasVoice ||
          m.hasVideoNote || m.hasSticker ||
          decide (0 < (jsTrim (stripCmd ((cmdToken cmd).map toLowerJS)
            (jsOrText m.text m.caption))).length))) ∧
    (∀ (m : Msg) (teams : List (List Char)) (onlyAdmins isAdminRes : Bool)
        (cooldownSec : Nat) (lastRun : Option Nat) (now : Nat)
        (roster : List User) (teamMembers : List Char → List User)
        (chunkSize delayMs : Nat) (oracle : Nat → SendResult) (fuel : Nat) (cmd : TagCmd),
      parseTagCommand teams (jsOrText m.text m.caption) = some cmd →
      getTargetMessageId m cmd = none →
      handleTagMessage true m teams onlyAdmins isAdminRes cooldownSec lastRun now roster
          teamMembers chunkSize delayMs oracle fuel = [Event.reply usageHintMsg] ∧
      ∀ (i : Nat) (t : List Char),
        Event.attempt i t ∉ handleTagMessage true m teams onlyAdmins isAdminRes cooldownSec
          lastRun now roster teamMembers chunkSize delayMs oracle fuel) := by
  refine ⟨?_, ?_, ?_⟩
  · intro m cmd r hr
    simp [getTargetMessageId, hr]
  · intro m cmd hr
    refine ⟨?_, ?_, rfl⟩
    · constructor
      · intro htgt
        by_contra hextra
        rw [Bool.not_eq_true] at hextra
        simp [getTargetMessageId, hr, hextra] at htgt
      · intro hextra
        simp [getTargetMessageId, hr, hextra]
    · intro hextra
      simp [getTargetMessageId, hr, hextra]
  · intro m teams onlyAdmins isAdminRes cooldownSec lastRun now roster teamMembers
      chunkSize delayMs oracle fuel cmd hparse htgt
    have htext : (jsOrText m.text m.caption).isEmpty = false := by
      by_contra hempty
      rw [Bool.not_eq_false] at hempty
      rw [List.isEmpty_iff.mp hempty] at hparse
      simp [parseTagCommand, firstCmdWord] at hparse
    have htr : handleTagMessage true m teams onlyAdmins isAdminRes cooldownSec lastRun now
        roster teamMembers chunkSize delayMs oracle fuel = [Event.reply usageHintMsg] := by
      simp only [handleTagMessage, htext, hparse, htgt, Bool.not_true, not_true_eq_false,
        if_false, Bool.false_eq_true, if_neg]
    refine ⟨htr, ?_⟩
    intro i t hmem
    rw [htr] at hmem
    simp at hmem

/-- Witness for C6: a reply-anchored command targets the replied message; a
bare `/tagall` with no reply and no extra content has no target and draws the
usage hint with no batch attempt; adding residual text makes the command
message itself the target. -/
theorem c6_target_resolution_witness :
    getTargetMessageId ⟨100, some 50, some "/tagall junk".toList, none,
      true, false, false, false, false, false, false⟩ TagCmd.tagall = some 50 ∧
    (getTargetMessageId ⟨100, none, some "/tagall hey".toList, none,
      false, false, false, false, false, false, false⟩ TagCmd.tagall = some 100 ↔
      messageHasExtraContent ⟨100, none, some "/tagall hey".toList, none,
        false, false, false, false, false, false, false⟩ (cmdToken TagCmd.tagall) = true) ∧
    (handleTagMessage true ⟨100, none, some "/tagall@MyBot".toList, none,
        false, false, false, false, false, false, false⟩ [] false false 60 none 99999
        [uAnn] (fun _ => []) 20 1200 (fun _ => SendResult.ok) 3 = [Event.reply usageHintMsg] ∧
      ∀ (i : Nat) (t : List Char),
        Event.attempt i t ∉ handleTagMessage true ⟨100, none, some "/tagall@MyBot".toList, none,
          false, false, false, false, false, false, false⟩ [] false false 60 none 99999
          [uAnn] (fun _ => []) 20 1200 (fun _ => SendResult.ok) 3) :=
  ⟨c6_target_resolution.1 ⟨100, some 50, some "/tagall junk".toList, none,
      true, false, false, false, false, false, false⟩ TagCmd.tagall 50 rfl,
   (c6_target_resolution.2.1 ⟨100, none, some "/tagall hey".toList, none,
      false, false, false, false, false, false, false⟩ TagCmd.tagall rfl).1,
   c6_target_resolution.2.2 ⟨100, none, some "/tagall@MyBot".toList, none,
      false, false, false, false, false, false, false⟩ [] false false 60 none 99999
      [uAnn] (fun _ => []) 20 1200 (fun _ => SendResult.ok) 3 TagCmd.tagall
      (by decide) (by decide)⟩

end TagallBot
